import Mathlib

/-!
Verification of the reliability core of the pygase networking library
(`pygase/connection.py`, `pygase/gamestate.py`).

The Python classes are shallowly embedded: byte strings become `List Nat`
(each entry a byte value), the 32-character ack bitfield becomes `List Char`
over the characters 0 and 1 as in the source, Python `dict`s become
insertion-ordered association lists, wall-clock times and latencies become
rationals, and Python exceptions become explicit `PyErr` values threaded
through the state that a method mutates before raising.

`pygase/utils.py` (the `Sqn` sequence-number type) and `pygase/event.py`
(the `Event` payload codec) are not part of the sources; the definitions
that stand in for them are modelled from the specification and marked as
such in their doc comments.
-/

namespace PygaseSpec

/-- Modelled from the spec: `Sqn.__sub__` of `pygase.utils` (absent from the
sources).  Signed shortest modular distance between two 16-bit sequence
numbers over the wrap-around domain of 65535 values. -/
def sqnSub (a b : Nat) : Int :=
  let r : Int := (a : Int) - (b : Int)
  if r < -32767 then r + 65535
  else if r > 32767 then r - 65535
  else r

/-- Modelled from the spec: `Sqn.to_sqn_bytes` of `pygase.utils` (absent from
the sources).  Big-endian two-byte encoding of a sequence number. -/
def toSqnBytes (n : Nat) : List Nat := [n / 256 % 256, n % 256]

/-- Big-endian byte-string decoding, as Python's `int.from_bytes(_, "big")`;
also the model of `Sqn.from_sqn_bytes` (spec: big-endian 16-bit field). -/
def fromBytesBE (bs : List Nat) : Nat := bs.foldl (fun a b => 256 * a + b) 0

/-- `len(x).to_bytes(2, "big")` -/
def toBytes2 (n : Nat) : List Nat := [n / 256 % 256, n % 256]

/-- `n.to_bytes(4, "big")` -/
def toBytes4 (n : Nat) : List Nat :=
  [n / 16777216 % 256, n / 65536 % 256, n / 256 % 256, n % 256]

/-- `PROTOCOL_ID = bytes.fromhex("ffd0fab9")` -/
def PROTOCOL_ID : List Nat := [255, 208, 250, 185]

/-- The exceptions the connection core can raise. -/
inductive PyErr where
  | protocolIDMismatch
  | duplicateSequence
  | indexError
  | overflow
  deriving DecidableEq, Repr

instance {ε α : Type} [DecidableEq ε] [DecidableEq α] : DecidableEq (Except ε α) :=
  fun a b =>
    match a, b with
    | .ok x, .ok y =>
      if h : x = y then .isTrue (by rw [h]) else .isFalse (by simp [h])
    | .error x, .error y =>
      if h : x = y then .isTrue (by rw [h]) else .isFalse (by simp [h])
    | .ok _, .error _ => .isFalse (by simp)
    | .error _, .ok _ => .isFalse (by simp)

/-- A binary digit rendered as Python renders it in a bitfield string. -/
def bitChar (d : Nat) : Char := if d = 1 then '1' else '0'

/-- The numeric value of one bitfield character, as `int(_, 2)` weighs it. -/
def bitVal (c : Char) : Nat := if c = '1' then 1 else 0

/-- `int(s, 2)`: value of a big-endian binary digit string. -/
def binStrToNat (s : List Char) : Nat := s.foldl (fun a c => 2 * a + bitVal c) 0

/-- The digit string of `bin(n)[2:]` for positive `n` (big-endian, no
leading zeros).  Structural recursion on a fuel bound (adequate whenever
`n ≤ fuel`, see `natToBinAux_val`) so that the kernel can evaluate it. -/
def natToBinAux : Nat → Nat → List Char
  | 0, _ => []
  | fuel + 1, n => if n = 0 then [] else natToBinAux fuel (n / 2) ++ [bitChar (n % 2)]

/-- `bin(n)[2:]`: Python renders zero as the single digit 0. -/
def natToBinStr (n : Nat) : List Char :=
  if n = 0 then ['0'] else natToBinAux n n

/-- `s.zfill(k)`: pad with leading zero characters up to length `k`. -/
def zfill (k : Nat) (s : List Char) : List Char :=
  List.replicate (k - s.length) '0' ++ s

/-- `s[:d]` for an `int` bound `d`, as Python slices: a negative bound
counts from the end and clamps at the start. -/
def pySliceTo (s : List Char) (d : Int) : List Char :=
  if d < 0 then s.take (s.length - (-d).toNat) else s.take d.toNat

/-- `Header` of `pygase/connection.py`: sequence, ack and the
32-character ack bitfield string. -/
structure Header where
  sequence : Nat
  ack : Nat
  ack_bitfield : List Char
  deriving DecidableEq, Repr

/-- `Header.to_bytearray`: protocol id, two sequence-number fields, and the
bitfield packed into four bytes. -/
def Header.to_bytearray (h : Header) : List Nat :=
  PROTOCOL_ID ++ toSqnBytes h.sequence ++ toSqnBytes h.ack
    ++ toBytes4 (binStrToNat h.ack_bitfield)

/-- `Header.deconstruct_datagram`: protocol-id guard, then field extraction
by slicing; returns the header together with the remaining payload. -/
def Header.deconstruct_datagram (datagram : List Nat) :
    Except PyErr (Header × List Nat) :=
  if datagram.take 4 ≠ PROTOCOL_ID then .error .protocolIDMismatch
  else
    let sequence := fromBytesBE ((datagram.drop 4).take 2)
    let ack := fromBytesBE ((datagram.drop 6).take 2)
    let ack_bitfield := zfill 32 (natToBinStr (fromBytesBE ((datagram.drop 8).take 4)))
    .ok (⟨sequence, ack, ack_bitfield⟩, datagram.drop 12)

/-- Modelled from the spec: `Event` of `pygase.event` (absent from the
sources) is an opaque payload; `Event.to_bytes`/`Event.from_bytes` carry it
to and from its serialized byte string. -/
structure Event where
  bytes : List Nat
  deriving DecidableEq, Repr

def Event.to_bytes (e : Event) : List Nat := e.bytes

def Event.from_bytes (bs : List Nat) : Event := ⟨bs⟩

/-- `Package.max_size = 2048` -/
def max_size : Nat := 2048

/-- `Package` of `pygase/connection.py`: a header, the attached events, and
the memoized datagram (`self._datagram`, `None` until serialized). -/
structure Package where
  header : Header
  events : List Event
  datagram : Option (List Nat)
  deriving DecidableEq, Repr

/-- `Package.add_event`, with the mutation-before-raise order of the
source made explicit: the error case returns the unmodified package. -/
def Package.add_event (p : Package) (e : Event) : Option PyErr × Package :=
  match p.datagram with
  | some d =>
    let bytepack := e.to_bytes
    if d.length + bytepack.length + 2 > max_size then
      (some .overflow, p)
    else
      (none, { p with
        datagram := some (d ++ toBytes2 bytepack.length ++ bytepack),
        events := p.events ++ [e] })
  | none => (none, { p with events := p.events ++ [e] })

/-- `Package._create_event_block`: two-byte length prefix before each
serialized event. -/
def create_event_block (events : List Event) : List Nat :=
  events.foldl (fun acc e => acc ++ toBytes2 e.to_bytes.length ++ e.to_bytes) []

/-- `Package.to_datagram`: returns the cached datagram if present, else
serializes, checks the size bound, and caches.  The error case leaves the
package untouched. -/
def Package.to_datagram (p : Package) : Except PyErr (List Nat) × Package :=
  match p.datagram with
  | some d => (.ok d, p)
  | none =>
    let d := p.header.to_bytearray ++ create_event_block p.events
    if d.length > max_size then (.error .overflow, p)
    else (.ok d, { p with datagram := some d })

/-- The loop body of `Package._read_out_event_block`, structural on a fuel
bound: every iteration consumes at least two bytes, so the input's length
is always an adequate fuel. -/
def read_out_event_block_aux : Nat → List Nat → List Event
  | 0, _ => []
  | fuel + 1, event_block =>
    if event_block = [] then []
    else
      let bytesize := fromBytesBE (event_block.take 2)
      Event.from_bytes ((event_block.drop 2).take bytesize)
        :: read_out_event_block_aux fuel (event_block.drop (bytesize + 2))

/-- `Package._read_out_event_block`: repeatedly read a two-byte length and
that many payload bytes until the buffer is exhausted. -/
def read_out_event_block (event_block : List Nat) : List Event :=
  read_out_event_block_aux event_block.length event_block

/-- `Package.from_datagram`: deconstruct the header, read the event block,
and cache the original datagram on the result. -/
def Package.from_datagram (datagram : List Nat) : Except PyErr Package :=
  match Header.deconstruct_datagram datagram with
  | .error e => .error e
  | .ok (header, payload) =>
    .ok { header := header, events := read_out_event_block payload,
          datagram := some datagram }

/-- `ClientPackage`: a `Package` plus the client's `time_order`. -/
structure ClientPackage where
  header : Header
  time_order : Nat
  events : List Event
  datagram : Option (List Nat)
  deriving DecidableEq, Repr

/-- `ClientPackage.to_datagram`: the `time_order` field follows the header. -/
def ClientPackage.to_datagram (p : ClientPackage) : Except PyErr (List Nat) × ClientPackage :=
  match p.datagram with
  | some d => (.ok d, p)
  | none =>
    let d := p.header.to_bytearray ++ toSqnBytes p.time_order
      ++ create_event_block p.events
    if d.length > max_size then (.error .overflow, p)
    else (.ok d, { p with datagram := some d })

/-- `ClientPackage.from_datagram`. -/
def ClientPackage.from_datagram (datagram : List Nat) : Except PyErr ClientPackage :=
  match Header.deconstruct_datagram datagram with
  | .error e => .error e
  | .ok (header, payload) =>
    .ok { header := header, time_order := fromBytesBE (payload.take 2),
          events := read_out_event_block (payload.drop 2),
          datagram := some datagram }

/-- A value stored in a game state or update dictionary
(`pygase/gamestate.py`): an opaque leaf value, the `TO_DELETE` deletion
token, or a nested dictionary. -/
inductive Val where
  | atom (n : Nat)
  | del
  | vdict (entries : List (String × Val))

/-- `v == TO_DELETE` -/
def Val.isToDelete : Val → Bool
  | .del => true
  | _ => false

/-- `d[k]` lookup in an insertion-ordered dictionary. -/
def dlookup (d : List (String × Val)) (k : String) : Option Val :=
  (d.find? (fun kv => kv.1 == k)).map Prod.snd

/-- `d[k] = v`: replace in place if the key exists, else append. -/
def dictSet (d : List (String × Val)) (k : String) (v : Val) :
    List (String × Val) :=
  if (d.find? (fun kv => kv.1 == k)).isSome then
    d.map (fun kv => if kv.1 = k then (kv.1, v) else kv)
  else d ++ [(k, v)]

mutual

/-- `_recursive_update(d, u, delete)` of `pygase/gamestate.py`: merge `u`
into `d`, recursing into values that are dictionaries on both sides, and
deleting keys marked `TO_DELETE` when `delete` is set. -/
def recursiveUpdate (d u : List (String × Val)) (delete : Bool) :
    List (String × Val) :=
  match u with
  | [] => d
  | (k, v) :: rest => recursiveUpdate (recursiveUpdateEntry d k v delete) rest delete
  termination_by sizeOf u

/-- One iteration of the `for k, v in u.items()` loop of
`_recursive_update`. -/
def recursiveUpdateEntry (d : List (String × Val)) (k : String) (v : Val)
    (delete : Bool) : List (String × Val) :=
  if v.isToDelete && delete && (dlookup d k).isSome then
    d.filter (fun kv => !(kv.1 == k))
  else
    match v, dlookup d k with
    | .vdict ve, some (.vdict de) => dictSet d k (.vdict (recursiveUpdate de ve delete))
    | _, _ => dictSet d k v
  termination_by sizeOf v

end

/-- `GameState`: its `__dict__` holds `time_order` and the remaining state
entries (here split off as `data`). -/
structure GameState where
  time_order : Nat
  data : List (String × Val)

/-- `GameStateUpdate`: a `time_order` label and a dictionary of changes. -/
structure GameStateUpdate where
  time_order : Nat
  data : List (String × Val)

/-- `GameStateUpdate.__add__`: the newer update's entries win, the result
carries the newer `time_order`, and ties favour `self`. -/
def GameStateUpdate.add (a b : GameStateUpdate) : GameStateUpdate :=
  if a.time_order < b.time_order then
    { time_order := b.time_order, data := recursiveUpdate a.data b.data false }
  else
    { time_order := a.time_order, data := recursiveUpdate b.data a.data false }

/-- Python `sum(iterable, start)`: fold `+` over the items starting from
`start` (the `GameStateUpdate.__radd__` zero case never fires because a
start value is supplied at the call site). -/
def pySum (l : List GameStateUpdate) (start : GameStateUpdate) : GameStateUpdate :=
  l.foldl GameStateUpdate.add start

/-- Modelled from the spec: the update wire codec (`Sendable.to_bytes` via
umsgpack in `pygase.utils`, absent from the sources) is opaque to the core;
the framing claims depend only on the length prefix, so the model encodes
just the `time_order` stub. -/
def GameStateUpdate.to_bytes (u : GameStateUpdate) : List Nat :=
  toSqnBytes u.time_order

/-- Modelled from the spec: inverse stub of `GameStateUpdate.to_bytes`
(opaque external codec, absent from the sources). -/
def GameStateUpdate.from_bytes (bs : List Nat) : GameStateUpdate :=
  { time_order := fromBytesBE (bs.take 2), data := [] }

/-- `ServerPackage`: a `Package` plus the server's state update. -/
structure ServerPackage where
  header : Header
  game_state_update : GameStateUpdate
  events : List Event
  datagram : Option (List Nat)

/-- `ServerPackage.to_datagram`: the length-prefixed state update follows
the header. -/
def ServerPackage.to_datagram (p : ServerPackage) :
    Except PyErr (List Nat) × ServerPackage :=
  match p.datagram with
  | some d => (.ok d, p)
  | none =>
    let state_update_bytepack := p.game_state_update.to_bytes
    let d := p.header.to_bytearray ++ toBytes2 state_update_bytepack.length
      ++ state_update_bytepack ++ create_event_block p.events
    if d.length > max_size then (.error .overflow, p)
    else (.ok d, { p with datagram := some d })

/-- `ServerPackage.from_datagram`. -/
def ServerPackage.from_datagram (datagram : List Nat) :
    Except PyErr ServerPackage :=
  match Header.deconstruct_datagram datagram with
  | .error e => .error e
  | .ok (header, payload) =>
    let state_update_bytesize := fromBytesBE (payload.take 2)
    .ok { header := header,
          game_state_update :=
            GameStateUpdate.from_bytes ((payload.drop 2).take state_update_bytesize),
          events := read_out_event_block (payload.drop (state_update_bytesize + 2)),
          datagram := some datagram }

/-- `ServerConnection._create_next_package`, restricted to the state-update
payload it computes: a full snapshot for a client with no state yet,
otherwise the sum of the cached updates newer than the client's time order
folded onto a changeless base update. -/
def ServerConnection.create_next_update (last_client_time_order : Nat)
    (game_state : GameState) (update_cache : List GameStateUpdate) :
    GameStateUpdate :=
  if last_client_time_order = 0 then
    { time_order := game_state.time_order, data := game_state.data }
  else
    let update_base : GameStateUpdate := { time_order := last_client_time_order, data := [] }
    pySum (update_cache.filter (fun upd => update_base.time_order < upd.time_order))
      update_base

/-- `ServerConnection._create_next_package`: wraps the computed update in a
`ServerPackage` with the connection's current header fields. -/
def ServerConnection.create_next_package (local_sequence remote_sequence : Nat)
    (ack_bitfield : List Char) (last_client_time_order : Nat)
    (game_state : GameState) (update_cache : List GameStateUpdate) :
    ServerPackage :=
  { header := ⟨local_sequence, remote_sequence, ack_bitfield⟩,
    game_state_update :=
      ServerConnection.create_next_update last_client_time_order game_state update_cache,
    events := [],
    datagram := none }

/-- `ConnectionStatus` of `pygase/connection.py`. -/
inductive ConnectionStatus where
  | disconnected
  | connected
  | connecting
  deriving DecidableEq, Repr

/-- Which of the two registered callbacks of an event fires. -/
inductive CbKind where
  | ack
  | timeout
  deriving DecidableEq, Repr

/-- One `_event_callbacks` entry: whether an ack and/or a timeout callback
was registered (the callables themselves are outside the embedding; only
their presence steers the control flow). -/
structure CallbackEntry where
  onAck : Bool
  onTimeout : Bool
  deriving DecidableEq, Repr

/-- Dictionary lookup in an insertion-ordered `dict` keyed by sequence
numbers. -/
def alookup {α : Type} (l : List (Nat × α)) (k : Nat) : Option α :=
  (l.find? (fun kv => kv.1 == k)).map Prod.snd

/-- `del d[k]` (and a no-op when the key is absent). -/
def removeKey {α : Type} (l : List (Nat × α)) (k : Nat) : List (Nat × α) :=
  l.filter (fun kv => !(kv.1 == k))

/-- Does a callback entry carry a callback of the given kind
(`... is not None` in the source)? -/
def CallbackEntry.has (entry : CallbackEntry) : CbKind → Bool
  | .ack => entry.onAck
  | .timeout => entry.onTimeout

/-- One iteration of the inner
`for event_sequence in self._events_with_callbacks[...]` loop of
`Connection._recv`: if a callback of the given kind is registered under
`c`, fire it (append to the trace) and delete its `_event_callbacks`
entry. -/
def fireStep (kind : CbKind)
    (acc : List (Nat × CbKind) × List (Nat × CallbackEntry)) (c : Nat) :
    List (Nat × CbKind) × List (Nat × CallbackEntry) :=
  match alookup acc.2 c with
  | some entry =>
    if entry.has kind then (acc.1 ++ [(c, kind)], removeKey acc.2 c)
    else acc
  | none => acc

/-- The inner callback loop of `Connection._recv`: fire every present
callback of the given kind and delete its `_event_callbacks` entry.
Returns the fired callback ids in order together with the surviving
registry. -/
def fireCallbacks (kind : CbKind) (ids : List Nat)
    (ecb : List (Nat × CallbackEntry)) :
    List (Nat × CbKind) × List (Nat × CallbackEntry) :=
  ids.foldl (fireStep kind) ([], ecb)

/-- The ack condition of the pending-ack scan in `Connection._recv`:
`sequence_diff == 0 or (0 < sequence_diff < 32 and
ack_bitfield[sequence_diff - 1] == "1")`. -/
def ackCondB (ack : Nat) (ack_bitfield : List Char) (p : Nat) : Bool :=
  let sequence_diff := sqnSub ack p
  sequence_diff == 0 ||
    (0 < sequence_diff && sequence_diff < 32 &&
      ack_bitfield.get? (sequence_diff.toNat - 1) == some '1')

/-- `Connection._update_latency`: exponential moving average with
coefficient one tenth. -/
def updateLatency (latency rtt : ℚ) : ℚ := latency + (1 / 10) * (rtt - latency)

/-- `Package.timeout = 1.0` -/
def package_timeout : ℚ := 1

/-- Output of the pending-ack resolution scan of `Connection._recv`. -/
structure ResolveOut where
  pending : List (Nat × ℚ)
  ewc : List (Nat × List Nat)
  ecb : List (Nat × CallbackEntry)
  latency : ℚ
  fired : List (Nat × CbKind)
  acked : List Nat

/-- The callbacks fired when pending sequence `p` is resolved: the inner
loop of `Connection._recv` guarded by
`if pending_sequence in self._events_with_callbacks`. -/
def firedOf (kind : CbKind) (ewc : List (Nat × List Nat)) (p : Nat)
    (ecb : List (Nat × CallbackEntry)) : List (Nat × CbKind) :=
  match alookup ewc p with
  | some ids => (fireCallbacks kind ids ecb).1
  | none => []

/-- The `_event_callbacks` registry after pending sequence `p` is
resolved. -/
def ecbAfter (kind : CbKind) (ewc : List (Nat × List Nat)) (p : Nat)
    (ecb : List (Nat × CallbackEntry)) : List (Nat × CallbackEntry) :=
  match alookup ewc p with
  | some ids => (fireCallbacks kind ids ecb).2
  | none => ecb

/-- The `_events_with_callbacks` registry after pending sequence `p` is
resolved (`del self._events_with_callbacks[pending_sequence]`, guarded by
the membership test). -/
def ewcAfter (ewc : List (Nat × List Nat)) (p : Nat) : List (Nat × List Nat) :=
  match alookup ewc p with
  | some _ => removeKey ewc p
  | none => ewc

/-- The `for pending_sequence in list(self._pending_acks)` scan of
`Connection._recv`: each pending sequence is acknowledged, timed out, or
kept, updating the latency estimate and the callback registries exactly as
the source mutates them.  `acked` instruments which sequences took the
acknowledgment branch. -/
def resolveAll (now : ℚ) (ack : Nat) (ack_bitfield : List Char) :
    List (Nat × ℚ) → List (Nat × List Nat) → List (Nat × CallbackEntry) → ℚ →
    ResolveOut
  | [], ewc, ecb, latency => ⟨[], ewc, ecb, latency, [], []⟩
  | (p, ts) :: rest, ewc, ecb, latency =>
    if ackCondB ack ack_bitfield p then
      let out := resolveAll now ack ack_bitfield rest (ewcAfter ewc p)
        (ecbAfter .ack ewc p ecb) (updateLatency latency (now - ts))
      ⟨out.pending, out.ewc, out.ecb, out.latency,
        firedOf .ack ewc p ecb ++ out.fired, p :: out.acked⟩
    else if now - ts > package_timeout then
      let out := resolveAll now ack ack_bitfield rest (ewcAfter ewc p)
        (ecbAfter .timeout ewc p ecb) latency
      ⟨out.pending, out.ewc, out.ecb, out.latency,
        firedOf .timeout ewc p ecb ++ out.fired, out.acked⟩
    else
      let out := resolveAll now ack ack_bitfield rest ewc ecb latency
      ⟨(p, ts) :: out.pending, out.ewc, out.ecb, out.latency, out.fired,
        out.acked⟩

/-- `Connection._update_remote_info`, with the mutation order of the source
made explicit: the result is the error raised (if any) together with the
values of `remote_sequence` and `ack_bitfield` when the call ends. -/
def updateRemoteInfo (received_sequence : Nat) (remote_sequence : Nat)
    (ack_bitfield : List Char) : Option PyErr × Nat × List Char :=
  if remote_sequence = 0 then (none, received_sequence, ack_bitfield)
  else
    let sequence_diff := sqnSub remote_sequence received_sequence
    let mutated :=
      if sequence_diff < 0 then
        if sequence_diff = -1 then
          (received_sequence, '1' :: ack_bitfield.take (ack_bitfield.length - 1))
        else
          (received_sequence, zfill 32 (pySliceTo ack_bitfield sequence_diff))
      else (remote_sequence, ack_bitfield)
    if sequence_diff = 0 then (some .duplicateSequence, mutated.1, mutated.2)
    else if sequence_diff > 0 then
      match mutated.2.get? (sequence_diff.toNat - 1) with
      | none => (some .indexError, mutated.1, mutated.2)
      | some c =>
        if c = '1' then (some .duplicateSequence, mutated.1, mutated.2)
        else (none, mutated.1,
          mutated.2.take (sequence_diff.toNat - 1) ++ '1' ::
            mutated.2.drop sequence_diff.toNat)
    else (none, mutated.1, mutated.2)

/-- The bookkeeping state of a `Connection`. -/
structure ConnState where
  remote_sequence : Nat
  ack_bitfield : List Char
  latency : ℚ
  status : ConnectionStatus
  last_recv : ℚ
  pending_acks : List (Nat × ℚ)
  events_with_callbacks : List (Nat × List Nat)
  event_callbacks : List (Nat × CallbackEntry)
  incoming_events : List Event
  deriving DecidableEq

/-- Result of one `Connection._recv` call. -/
structure RecvOut where
  err : Option PyErr
  state : ConnState
  fired : List (Nat × CbKind)
  acked : List Nat
  deriving DecidableEq

/-- `Connection._recv`: record the receive time and connected status, update
the remote info (propagating its exception with the mutations made so far),
resolve pending acks, and enqueue the package's events. -/
def Connection.recv (pkgHeader : Header) (pkgEvents : List Event) (now : ℚ)
    (st : ConnState) : RecvOut :=
  let st0 := { st with last_recv := now, status := .connected }
  let upd := updateRemoteInfo pkgHeader.sequence st0.remote_sequence st0.ack_bitfield
  match upd.1 with
  | some e =>
    ⟨some e, { st0 with remote_sequence := upd.2.1, ack_bitfield := upd.2.2 }, [], []⟩
  | none =>
    let st1 := { st0 with remote_sequence := upd.2.1, ack_bitfield := upd.2.2 }
    let out := resolveAll now pkgHeader.ack pkgHeader.ack_bitfield
      st1.pending_acks st1.events_with_callbacks st1.event_callbacks st1.latency
    let st2 := { st1 with
      pending_acks := out.pending,
      events_with_callbacks := out.ewc,
      event_callbacks := out.ecb,
      latency := out.latency,
      incoming_events := st1.incoming_events ++ pkgEvents }
    ⟨none, st2, out.fired, out.acked⟩

/-- `Connection.quality` values. -/
inductive Quality where
  | good
  | bad
  deriving DecidableEq, Repr

/-- The congestion-avoidance `state` dictionary of
`Connection._congestion_avoidance_monitor`. -/
structure ThrottleDict where
  throttle_time : ℚ
  last_quality_change : ℚ
  last_good_quality_milestone : ℚ
  deriving DecidableEq, Repr

/-- The connection attributes `_throttling_state_machine` reads and
writes. -/
structure CongestionView where
  quality : Quality
  latency : ℚ
  package_interval : ℚ
  deriving DecidableEq, Repr

def max_throttle_time : ℚ := 60
def min_throttle_time : ℚ := 1
def latency_threshold : ℚ := 1 / 4
def package_interval_good : ℚ := 1 / 40
def package_interval_bad : ℚ := 1 / 20

/-- `Connection._throttling_state_machine`. -/
def throttlingStateMachine (t : ℚ) (c : CongestionView) (s : ThrottleDict) :
    CongestionView × ThrottleDict :=
  match c.quality with
  | .good =>
    if c.latency > latency_threshold then
      let s1 :=
        if t - s.last_quality_change < s.throttle_time then
          { s with throttle_time := min (s.throttle_time * 2) max_throttle_time }
        else s
      ({ c with quality := .bad, package_interval := package_interval_bad },
        { s1 with last_quality_change := t })
    else if t - s.last_good_quality_milestone > s.throttle_time then
      ({ c with package_interval := package_interval_good },
        { s with throttle_time := max (s.throttle_time / 2) min_throttle_time,
                 last_good_quality_milestone := t })
    else (c, s)
  | .bad =>
    if c.latency < latency_threshold then
      ({ c with quality := .good },
        { s with last_quality_change := t, last_good_quality_milestone := t })
    else (c, s)

/-- Ingest a list of received sequence numbers through
`Connection._update_remote_info`, starting from the given
`(remote_sequence, ack_bitfield)` and collecting every raised error. -/
def ingestSequences (seqs : List Nat) (st : Nat × List Char) :
    (Nat × List Char) × List PyErr :=
  seqs.foldl (fun acc s =>
    let r := updateRemoteInfo s acc.1.1 acc.1.2
    ((r.2.1, r.2.2), acc.2 ++ (match r.1 with | some e => [e] | none => [])))
    (st, [])

/-- C1: the claim asserts that for `-32 < d < -1` the ack update sets bit
`|d| - 1` (the old `remote_sequence`) to 1, and that ingesting 1,3,5,2,4
into a fresh connection yields bitfield bits 0..3 all 1.  Evaluating the
code shows otherwise: after 1 then 3 (d = -2) bit 1 is still 0, the full
scenario ends with bits 0..3 equal to 1,0,1,0, and a repeated sequence 1
after 1,3 is accepted without `DuplicateSequence` - the zero-filled shift
loses the record of the old remote sequence. -/
theorem C1_bitfield_shift_eval :
    (updateRemoteInfo 3 1 (List.replicate 32 '0')).1 = none ∧
    (updateRemoteInfo 3 1 (List.replicate 32 '0')).2.1 = 3 ∧
    (updateRemoteInfo 3 1 (List.replicate 32 '0')).2.2.take 2 = ['0', '0'] ∧
    (ingestSequences [1, 3, 5, 2, 4] (0, List.replicate 32 '0')).1.1 = 5 ∧
    (ingestSequences [1, 3, 5, 2, 4] (0, List.replicate 32 '0')).1.2.take 4 =
      ['1', '0', '1', '0'] ∧
    (ingestSequences [1, 3, 5, 2, 4] (0, List.replicate 32 '0')).2 = [] ∧
    (ingestSequences [1, 3, 1] (0, List.replicate 32 '0')).2 = [] := by
  decide

/-- C4 (counterexample): the claim asserts that a datagram starting with
the protocol tag but shorter than 12 bytes fails with `MalformedHeader`;
decoding the bare 4-byte tag in fact succeeds with zero-filled fields. -/
theorem C4_short_header_decodes :
    Header.deconstruct_datagram PROTOCOL_ID =
      .ok (⟨0, 0, List.replicate 32 '0'⟩, []) := by
  rfl

/-- C4 (amended): header decoding fails with `ProtocolIDMismatch` exactly
when the first up-to-four bytes differ from the protocol tag; every
tag-prefixed input decodes successfully (inputs shorter than 12 bytes
yield zero-filled fields), so `ProtocolIDMismatch` is the only decode
failure. -/
theorem C4_header_decode_failures (d : List Nat) :
    (d.take 4 ≠ PROTOCOL_ID →
      Header.deconstruct_datagram d = .error .protocolIDMismatch) ∧
    (d.take 4 = PROTOCOL_ID →
      ∃ hdr rest, Header.deconstruct_datagram d = .ok (hdr, rest)) := by
  constructor
  · intro h
    simp [Header.deconstruct_datagram, h]
  · intro h
    exact ⟨⟨fromBytesBE ((d.drop 4).take 2), fromBytesBE ((d.drop 6).take 2),
      zfill 32 (natToBinStr (fromBytesBE ((d.drop 8).take 4)))⟩, d.drop 12,
      by simp [Header.deconstruct_datagram, h]⟩

/-- C4 (witness): both branches of `C4_header_decode_failures` at concrete
inputs. -/
theorem C4_header_decode_failures_witness :
    Header.deconstruct_datagram [0] = .error .protocolIDMismatch ∧
    ∃ hdr rest, Header.deconstruct_datagram PROTOCOL_ID = .ok (hdr, rest) :=
  ⟨(C4_header_decode_failures [0]).1 (by decide),
   (C4_header_decode_failures PROTOCOL_ID).2 (by decide)⟩

/-- C7: the state-update payload of every outbound `ServerPackage` is a
full snapshot of the current game state when the client's
`last_client_time_order` is zero, and otherwise the sum of exactly the
cached updates with strictly newer `time_order`, folded onto a changeless
base update carrying `last_client_time_order`. -/
theorem C7_server_state_payload (local_sequence remote_sequence : Nat)
    (ack_bitfield : List Char) (last_client_time_order : Nat)
    (game_state : GameState) (update_cache : List GameStateUpdate) :
    (ServerConnection.create_next_package local_sequence remote_sequence
        ack_bitfield last_client_time_order game_state update_cache).game_state_update =
      if last_client_time_order = 0 then
        { time_order := game_state.time_order, data := game_state.data }
      else
        (update_cache.filter (fun u => last_client_time_order < u.time_order)).foldl
          GameStateUpdate.add { time_order := last_client_time_order, data := [] } := by
  rfl

/-- C8: an `Overflow` from `add_event` or `to_datagram` leaves the package
in its pre-overflow state (event list and cached datagram untouched), and
`add_event` on a package with no cached datagram always succeeds and
appends the event. -/
theorem C8_overflow_keeps_package_usable :
    (∀ (p : Package) (e : Event), p.datagram = none →
      Package.add_event p e = (none, { p with events := p.events ++ [e] })) ∧
    (∀ (p : Package) (e : Event), (Package.add_event p e).1 = some PyErr.overflow →
      (Package.add_event p e).2 = p) ∧
    (∀ p : Package, (Package.to_datagram p).1 = .error PyErr.overflow →
      (Package.to_datagram p).2 = p) := by
  refine ⟨?_, ?_, ?_⟩
  · intro p e hd
    simp [Package.add_event, hd]
  · intro p e h
    rcases p with ⟨hdr, evs, _ | d⟩
    · simp [Package.add_event] at h
    · simp only [Package.add_event] at h ⊢
      by_cases hc : d.length + e.to_bytes.length + 2 > max_size
      · rw [if_pos hc]
      · rw [if_neg hc] at h
        simp at h
  · intro p h
    rcases p with ⟨hdr, evs, _ | d⟩
    · simp only [Package.to_datagram] at h ⊢
      by_cases hc : (hdr.to_bytearray ++ create_event_block evs).length > max_size
      · rw [if_pos hc]
      · rw [if_neg hc] at h
        simp at h
    · simp [Package.to_datagram] at h

/-- C8 (witness): a fresh package accepts an event; a package whose cached
datagram is one byte below the limit rejects a further event unchanged; a
package whose serialization would exceed 2048 bytes is left untouched by
`to_datagram`. -/
theorem C8_overflow_keeps_package_usable_witness :
    Package.add_event ⟨⟨1, 0, List.replicate 32 '0'⟩, [], none⟩ ⟨[7]⟩ =
      (none, ⟨⟨1, 0, List.replicate 32 '0'⟩, [⟨[7]⟩], none⟩) ∧
    (Package.add_event
        ⟨⟨1, 0, List.replicate 32 '0'⟩, [], some (List.replicate 2047 0)⟩ ⟨[]⟩).2 =
      ⟨⟨1, 0, List.replicate 32 '0'⟩, [], some (List.replicate 2047 0)⟩ ∧
    (Package.to_datagram ⟨⟨1, 0, List.replicate 32 '0'⟩, [⟨List.replicate 2100 7⟩], none⟩).2 =
      ⟨⟨1, 0, List.replicate 32 '0'⟩, [⟨List.replicate 2100 7⟩], none⟩ :=
  by
  have key1 : ∀ d : List Nat, d.length = 2047 →
      (Package.add_event ⟨⟨1, 0, List.replicate 32 '0'⟩, [], some d⟩ ⟨[]⟩).1 =
        some PyErr.overflow := by
    intro d hd
    simp only [Package.add_event, Event.to_bytes, hd, List.length_nil]
    rw [if_pos (by norm_num [max_size])]
  have key2 : ∀ bs : List Nat, bs.length = 2100 →
      (Package.to_datagram ⟨⟨1, 0, List.replicate 32 '0'⟩, [⟨bs⟩], none⟩).1 =
        .error PyErr.overflow := by
    intro bs hbs
    have hc : (Header.to_bytearray ⟨1, 0, List.replicate 32 '0'⟩
        ++ create_event_block [⟨bs⟩]).length > max_size := by
      simp [Header.to_bytearray, create_event_block, Event.to_bytes, toSqnBytes,
        toBytes4, toBytes2, PROTOCOL_ID, hbs, max_size]
    simp only [Package.to_datagram]
    rw [if_pos hc]
  exact ⟨C8_overflow_keeps_package_usable.1 _ _ rfl,
    C8_overflow_keeps_package_usable.2.1 _ _ (key1 _ (List.length_replicate _ _)),
    C8_overflow_keeps_package_usable.2.2 _ (key2 _ (List.length_replicate _ _))⟩

/-- C10: whenever `from_datagram` (base, client, or server variant)
accepts a byte string, the resulting package caches it, so `to_datagram`
returns exactly the original bytes. -/
theorem C10_parse_then_serialize_identity :
    (∀ (b : List Nat) (p : Package), Package.from_datagram b = .ok p →
      Package.to_datagram p = (.ok b, p)) ∧
    (∀ (b : List Nat) (p : ClientPackage), ClientPackage.from_datagram b = .ok p →
      ClientPackage.to_datagram p = (.ok b, p)) ∧
    (∀ (b : List Nat) (p : ServerPackage), ServerPackage.from_datagram b = .ok p →
      ServerPackage.to_datagram p = (.ok b, p)) := by
  refine ⟨?_, ?_, ?_⟩ <;> intro b p h
  · rcases hd : Header.deconstruct_datagram b with e | pr
    · simp [Package.from_datagram, hd] at h
    · simp [Package.from_datagram, hd] at h
      rw [← h]
      rfl
  · rcases hd : Header.deconstruct_datagram b with e | pr
    · simp [ClientPackage.from_datagram, hd] at h
    · simp [ClientPackage.from_datagram, hd] at h
      rw [← h]
      rfl
  · rcases hd : Header.deconstruct_datagram b with e | pr
    · simp [ServerPackage.from_datagram, hd] at h
    · simp [ServerPackage.from_datagram, hd] at h
      rw [← h]
      rfl

/-- C10 (witness): the three variants round-trip the bare protocol tag. -/
theorem C10_parse_then_serialize_identity_witness :
    Package.to_datagram ⟨⟨0, 0, List.replicate 32 '0'⟩, [], some PROTOCOL_ID⟩ =
      (.ok PROTOCOL_ID, ⟨⟨0, 0, List.replicate 32 '0'⟩, [], some PROTOCOL_ID⟩) ∧
    ClientPackage.to_datagram ⟨⟨0, 0, List.replicate 32 '0'⟩, 0, [], some PROTOCOL_ID⟩ =
      (.ok PROTOCOL_ID, ⟨⟨0, 0, List.replicate 32 '0'⟩, 0, [], some PROTOCOL_ID⟩) ∧
    ServerPackage.to_datagram
        ⟨⟨0, 0, List.replicate 32 '0'⟩, ⟨0, []⟩, [], some PROTOCOL_ID⟩ =
      (.ok PROTOCOL_ID, ⟨⟨0, 0, List.replicate 32 '0'⟩, ⟨0, []⟩, [], some PROTOCOL_ID⟩) :=
  ⟨C10_parse_then_serialize_identity.1 PROTOCOL_ID _ rfl,
   C10_parse_then_serialize_identity.2.1 PROTOCOL_ID _ rfl,
   C10_parse_then_serialize_identity.2.2 PROTOCOL_ID _ rfl⟩

/-- C6: the three transitions of the congestion controller: a good
connection with latency above the threshold turns bad at the slow interval
and doubles `throttle_time` (capped at 60) exactly when the last quality
change is less than `throttle_time` ago; a good connection at or below the
threshold whose last good milestone is more than `throttle_time` old
adopts the fast interval and halves `throttle_time` (floored at 1); a bad
connection with latency below the threshold turns good, resets both
timestamps, and keeps its send interval. -/
theorem C6_throttling_state_machine (t : ℚ) (c : CongestionView) (s : ThrottleDict) :
    (c.quality = .good → c.latency > latency_threshold →
      (throttlingStateMachine t c s).1.quality = .bad ∧
      (throttlingStateMachine t c s).1.package_interval = package_interval_bad ∧
      (throttlingStateMachine t c s).2.throttle_time =
        (if t - s.last_quality_change < s.throttle_time
         then min (s.throttle_time * 2) max_throttle_time
         else s.throttle_time)) ∧
    (c.quality = .good → c.latency ≤ latency_threshold →
      t - s.last_good_quality_milestone > s.throttle_time →
      (throttlingStateMachine t c s).1.package_interval = package_interval_good ∧
      (throttlingStateMachine t c s).2.throttle_time =
        max (s.throttle_time / 2) min_throttle_time) ∧
    (c.quality = .bad → c.latency < latency_threshold →
      (throttlingStateMachine t c s).1.quality = .good ∧
      (throttlingStateMachine t c s).2.last_quality_change = t ∧
      (throttlingStateMachine t c s).2.last_good_quality_milestone = t ∧
      (throttlingStateMachine t c s).1.package_interval = c.package_interval) := by
  rcases c with ⟨q, lat, pi⟩
  refine ⟨?_, ?_, ?_⟩
  · intro hq hlat
    cases q with
    | bad => exact absurd hq (by simp)
    | good =>
      simp only [throttlingStateMachine]
      rw [if_pos hlat]
      refine ⟨rfl, rfl, ?_⟩
      by_cases hc : t - s.last_quality_change < s.throttle_time
      · rw [if_pos hc, if_pos hc]
      · rw [if_neg hc, if_neg hc]
  · intro hq hlat hmile
    cases q with
    | bad => exact absurd hq (by simp)
    | good =>
      simp only [throttlingStateMachine]
      rw [if_neg (by simpa using hlat), if_pos hmile]
      exact ⟨rfl, rfl⟩
  · intro hq hlat
    cases q with
    | good => exact absurd hq (by simp)
    | bad =>
      simp only [throttlingStateMachine]
      rw [if_pos hlat]
      exact ⟨rfl, rfl, rfl, rfl⟩

/-- C6 (witness): the spec's throttling scenario at concrete inputs: a
latency spike at `t = 0.1` turns the controller bad and doubles the
throttle time; a sustained good stretch relaxes the interval and halves
the throttle time; a recovery resets both timestamps. -/
theorem C6_throttling_state_machine_witness :
    (throttlingStateMachine (1/10) ⟨.good, 3/10, 1/40⟩ ⟨1, 0, 0⟩).1.quality = .bad ∧
    (throttlingStateMachine (1/10) ⟨.good, 3/10, 1/40⟩ ⟨1, 0, 0⟩).2.throttle_time = 2 ∧
    (throttlingStateMachine (27/10) ⟨.good, 1/10, 1/20⟩ ⟨2, 6/10, 6/10⟩).1.package_interval = 1/40 ∧
    (throttlingStateMachine (27/10) ⟨.good, 1/10, 1/20⟩ ⟨2, 6/10, 6/10⟩).2.throttle_time = 1 ∧
    (throttlingStateMachine (6/10) ⟨.bad, 1/10, 1/20⟩ ⟨2, 1/10, 1/10⟩).1.quality = .good ∧
    (throttlingStateMachine (6/10) ⟨.bad, 1/10, 1/20⟩ ⟨2, 1/10, 1/10⟩).2.last_good_quality_milestone = 6/10 := by
  have h1 := (C6_throttling_state_machine (1/10) ⟨.good, 3/10, 1/40⟩ ⟨1, 0, 0⟩).1
    rfl (by norm_num [latency_threshold])
  have h2 := (C6_throttling_state_machine (27/10) ⟨.good, 1/10, 1/20⟩ ⟨2, 6/10, 6/10⟩).2.1
    rfl (by norm_num [latency_threshold]) (by norm_num)
  have h3 := (C6_throttling_state_machine (6/10) ⟨.bad, 1/10, 1/20⟩ ⟨2, 1/10, 1/10⟩).2.2
    rfl (by norm_num [latency_threshold])
  refine ⟨h1.1, ?_, ?_, ?_, h3.1, h3.2.2.1⟩
  · rw [h1.2.2]
    norm_num [max_throttle_time]
  · rw [h2.1]
    norm_num [package_interval_good]
  · rw [h2.2]
    norm_num [min_throttle_time]

/-- C3 (counterexample): the claim asserts that a packet staler than the
32-entry window fails with `DuplicateSequence` and no other kind of
failure; at `remote_sequence = 40`, incoming sequence 7 (`d = 33`) the
update in fact raises `IndexError` (the bitfield index `d - 1` is out of
range). -/
theorem C3_stale_window_counterexample :
    (updateRemoteInfo 7 40 (List.replicate 32 '0')).1 = some PyErr.indexError ∧
    PyErr.indexError ≠ PyErr.duplicateSequence := by
  decide

/-- C3 (amended): on a packet whose sequence is staler than the 32-entry
bitfield window (`d > 32`), the ack update fails with `IndexError` - not
`DuplicateSequence` - and `remote_sequence` and the ack bitfield are
unchanged. -/
theorem C3_stale_window_index_error (S remote : Nat) (bf : List Char)
    (hr : remote ≠ 0) (hlen : bf.length = 32) (hd : sqnSub remote S > 32) :
    updateRemoteInfo S remote bf = (some PyErr.indexError, remote, bf) := by
  unfold updateRemoteInfo
  rw [if_neg hr]
  have h1 : ¬ sqnSub remote S < 0 := by omega
  have h2 : sqnSub remote S ≠ 0 := by omega
  have hnone : bf.get? ((sqnSub remote S).toNat - 1) = none := by
    rw [List.get?_eq_none]
    omega
  simp only [h1, if_false, if_neg h1, if_neg h2, hnone]
  rw [if_pos (show sqnSub remote S > 0 by omega)]

/-- C3 (witness): the amended statement at the counterexample input. -/
theorem C3_stale_window_index_error_witness :
    sqnSub 40 7 > 32 ∧
    updateRemoteInfo 7 40 (List.replicate 32 '0') =
      (some PyErr.indexError, 40, List.replicate 32 '0') :=
  ⟨by decide,
   C3_stale_window_index_error 7 40 (List.replicate 32 '0') (by decide)
     (List.length_replicate _ _) (by decide)⟩

/-- When `_update_remote_info` raises, it has not yet mutated
`remote_sequence` or `ack_bitfield`: every raise happens before the
assignments of its branch. -/
theorem updateRemoteInfo_error_frame (S r : Nat) (bf : List Char) (e : PyErr)
    (h : (updateRemoteInfo S r bf).1 = some e) :
    (updateRemoteInfo S r bf).2 = (r, bf) := by
  by_cases hr : r = 0
  · unfold updateRemoteInfo at h
    rw [if_pos hr] at h
    simp at h
  · unfold updateRemoteInfo at h ⊢
    rw [if_neg hr] at h ⊢
    simp only at h ⊢
    by_cases hneg : sqnSub r S < 0
    · rw [if_neg (show ¬ sqnSub r S = 0 by omega),
        if_neg (show ¬ sqnSub r S > 0 by omega)] at h
      simp at h
    · rw [if_neg hneg] at h ⊢
      by_cases h0 : sqnSub r S = 0
      · rw [if_pos h0]
      · rw [if_neg h0] at h ⊢
        by_cases hpos : sqnSub r S > 0
        · rw [if_pos hpos] at h ⊢
          dsimp only at h ⊢
          rcases hget : bf.get? ((sqnSub r S).toNat - 1) with _ | c
          · rfl
          · rw [hget] at h
            dsimp only at h ⊢
            by_cases h1 : c = '1'
            · rw [if_pos h1]
            · rw [if_neg h1] at h
              simp at h
        · rw [if_neg hpos] at h
          simp at h

/-- C5 (counterexample): the claim asserts that a call raising
`DuplicateSequence` leaves the connection status and last-receive time
unchanged; receiving a duplicate of sequence 3 in fact flips a
`Connecting` connection to `Connected` and advances its last-receive
time before the duplicate check fires. -/
theorem C5_duplicate_counterexample :
    (Connection.recv ⟨3, 0, List.replicate 32 '0'⟩ [] 10
        ⟨5, '0' :: '1' :: List.replicate 30 '0', 0, .connecting, 0, [], [], [], []⟩).err =
      some PyErr.duplicateSequence ∧
    (Connection.recv ⟨3, 0, List.replicate 32 '0'⟩ [] 10
        ⟨5, '0' :: '1' :: List.replicate 30 '0', 0, .connecting, 0, [], [], [], []⟩).state.status ≠
      ConnectionStatus.connecting ∧
    (Connection.recv ⟨3, 0, List.replicate 32 '0'⟩ [] 10
        ⟨5, '0' :: '1' :: List.replicate 30 '0', 0, .connecting, 0, [], [], [], []⟩).state.last_recv ≠
      0 := by
  decide

/-- C5 (amended): whenever `_recv` raises `DuplicateSequence`, the packet
is dropped with no bookkeeping side effects except the two updates made
before the duplicate check: the resulting state is exactly the old state
with `last_recv` set to the receive time and status set to `Connected`;
in particular `remote_sequence`, the ack bitfield, the pending-ack table,
the callback registries, and the incoming event queue are unchanged, no
callbacks fire, and none of the packet's events are enqueued. -/
theorem C5_duplicate_drop_bookkeeping (hdr : Header) (evs : List Event) (now : ℚ)
    (st : ConnState)
    (hdup : (Connection.recv hdr evs now st).err = some PyErr.duplicateSequence) :
    (Connection.recv hdr evs now st).state =
      { st with last_recv := now, status := .connected } ∧
    (Connection.recv hdr evs now st).fired = [] ∧
    (Connection.recv hdr evs now st).acked = [] := by
  unfold Connection.recv at hdup ⊢
  simp only at hdup ⊢
  rcases hu : (updateRemoteInfo hdr.sequence st.remote_sequence st.ack_bitfield).1 with _ | e
  · simp only [hu] at hdup
    simp at hdup
  · have hframe := updateRemoteInfo_error_frame hdr.sequence st.remote_sequence
      st.ack_bitfield e hu
    simp only [hu] at hdup ⊢
    rcases st with ⟨r, bf, lat, status, lr, pa, ewc, ecb, ie⟩
    simp only at hframe ⊢
    rw [hframe]
    refine ⟨rfl, ?_, ?_⟩ <;> trivial

/-- C5 (witness): the amended statement at the counterexample input. -/
theorem C5_duplicate_drop_bookkeeping_witness :
    (Connection.recv ⟨3, 0, List.replicate 32 '0'⟩ [] 10
        ⟨5, '0' :: '1' :: List.replicate 30 '0', 0, .connecting, 0, [], [], [], []⟩).state =
      ⟨5, '0' :: '1' :: List.replicate 30 '0', 0, .connected, 10, [], [], [], []⟩ ∧
    (Connection.recv ⟨3, 0, List.replicate 32 '0'⟩ [] 10
        ⟨5, '0' :: '1' :: List.replicate 30 '0', 0, .connecting, 0, [], [], [], []⟩).fired = [] ∧
    (Connection.recv ⟨3, 0, List.replicate 32 '0'⟩ [] 10
        ⟨5, '0' :: '1' :: List.replicate 30 '0', 0, .connecting, 0, [], [], [], []⟩).acked = [] :=
  C5_duplicate_drop_bookkeeping ⟨3, 0, List.replicate 32 '0'⟩ [] 10
    ⟨5, '0' :: '1' :: List.replicate 30 '0', 0, .connecting, 0, [], [], [], []⟩ (by decide)

/-- A successful dictionary lookup returns an entry of the list. -/
theorem alookup_mem {α : Type} (l : List (Nat × α)) (k : Nat) (v : α)
    (h : alookup l k = some v) : (k, v) ∈ l := by
  unfold alookup at h
  rcases hf : l.find? (fun kv => kv.1 == k) with _ | kv
  · rw [hf] at h
    simp at h
  · rw [hf] at h
    simp at h
    have hmem := List.mem_of_find?_eq_some hf
    have hkey := List.find?_some hf
    simp at hkey
    have : kv = (k, v) := by
      rcases kv with ⟨k1, v1⟩
      simp at hkey h
      exact Prod.ext hkey h
    rw [← this]
    exact hmem

/-- Deleting one key leaves lookups of other keys unchanged. -/
theorem alookup_removeKey_ne {α : Type} (l : List (Nat × α)) (k c : Nat)
    (h : k ≠ c) : alookup (removeKey l k) c = alookup l c := by
  induction l with
  | nil => rfl
  | cons kv t ih =>
    by_cases hk : kv.1 = k
    · have h1 : (kv.1 == k) = true := by simp [hk]
      have h2 : (kv.1 == c) = false := by simp [hk]; omega
      simp [removeKey, List.filter, h1, alookup, List.find?, h2] at ih ⊢
      simpa [alookup, removeKey] using ih
    · have h1 : (kv.1 == k) = false := by simp [hk]
      by_cases hc : kv.1 = c
      · have h2 : (kv.1 == c) = true := by simp [hc]
        simp [removeKey, List.filter, h1, alookup, List.find?, h2]
      · have h2 : (kv.1 == c) = false := by simp [hc]
        simp [removeKey, List.filter, h1, alookup, List.find?, h2] at ih ⊢
        simpa [alookup, removeKey] using ih

/-- The fired-callback trace only grows along the callback loop. -/
theorem foldl_fireStep_fired_mono (kind : CbKind) (ids : List Nat)
    (acc : List (Nat × CbKind) × List (Nat × CallbackEntry)) (x : Nat × CbKind)
    (hx : x ∈ acc.1) : x ∈ (ids.foldl (fireStep kind) acc).1 := by
  induction ids generalizing acc with
  | nil => exact hx
  | cons d rest ih =>
    apply ih
    unfold fireStep
    rcases alookup acc.2 d with _ | entry
    · exact hx
    · by_cases he : entry.has kind
      · simp only [he, if_true]
        exact List.mem_append_left _ hx
      · simp only [he, if_false]
        exact hx

/-- A registered callback of the right kind fires during the callback
loop. -/
theorem foldl_fireStep_fires (kind : CbKind) (ids : List Nat)
    (acc : List (Nat × CbKind) × List (Nat × CallbackEntry)) (c : Nat)
    (entry : CallbackEntry) (hc : c ∈ ids) (hl : alookup acc.2 c = some entry)
    (hh : entry.has kind = true) :
    (c, kind) ∈ (ids.foldl (fireStep kind) acc).1 := by
  induction ids generalizing acc with
  | nil => simp at hc
  | cons d rest ih =>
    rw [List.foldl_cons]
    by_cases hcd : c = d
    · subst hcd
      apply foldl_fireStep_fired_mono
      unfold fireStep
      rw [hl]
      simp only [hh, if_true]
      exact List.mem_append_right _ (by simp)
    · have hct : c ∈ rest := by
        rcases List.mem_cons.mp hc with h | h
        · exact absurd h hcd
        · exact h
      apply ih _ hct
      unfold fireStep
      rcases hd : alookup acc.2 d with _ | entryd
      · exact hl
      · by_cases he : entryd.has kind
        · simp only [he, if_true]
          rw [alookup_removeKey_ne _ d c (fun hdc => hcd hdc.symm)]
          exact hl
        · simp only [he, if_false]
          exact hl

/-- The callback loop never deletes registry entries outside its id
list. -/
theorem foldl_fireStep_frame (kind : CbKind) (ids : List Nat)
    (acc : List (Nat × CbKind) × List (Nat × CallbackEntry)) (c : Nat)
    (hc : c ∉ ids) :
    alookup (ids.foldl (fireStep kind) acc).2 c = alookup acc.2 c := by
  induction ids generalizing acc with
  | nil => rfl
  | cons d rest ih =>
    have hcd : c ≠ d := fun h => hc (by simp [h])
    have hct : c ∉ rest := fun h => hc (by simp [h])
    rw [List.foldl_cons, ih _ hct]
    unfold fireStep
    rcases hd : alookup acc.2 d with _ | entryd
    · rfl
    · by_cases he : entryd.has kind
      · simp only [he, if_true]
        exact alookup_removeKey_ne _ d c (fun h => hcd h.symm)
      · simp [he]

/-- In a registry whose joined callback-id lists are duplicate-free, the
id lists of entries under different keys are disjoint. -/
theorem join_nodup_disjoint (ewc : List (Nat × List Nat))
    (hj : ((ewc.map Prod.snd).flatten).Nodup) (p P : Nat) (ids_p ids : List Nat)
    (hne : p ≠ P) (hp : (p, ids_p) ∈ ewc) (hP : (P, ids) ∈ ewc) :
    ∀ x ∈ ids, x ∉ ids_p := by
  induction ewc with
  | nil => simp at hp
  | cons kv t ih =>
    rcases kv with ⟨k0, v0⟩
    rw [List.map_cons, List.flatten_cons, List.nodup_append] at hj
    obtain ⟨h1, h2, hdisj⟩ := hj
    intro x hx
    rcases List.mem_cons.mp hp with hph | hpt
    · rcases List.mem_cons.mp hP with hPh | hPt
      · exfalso
        apply hne
        rw [Prod.mk.injEq] at hph hPh
        rw [hph.1, hPh.1]
      · rw [Prod.mk.injEq] at hph
        intro hxp
        have hxj : x ∈ (t.map Prod.snd).flatten := by
          rw [List.mem_flatten]
          exact ⟨ids, List.mem_map_of_mem Prod.snd hPt, hx⟩
        have hxv : x ∈ v0 := by
          rw [← hph.2]
          exact hxp
        exact hdisj hxv hxj
    · rcases List.mem_cons.mp hP with hPh | hPt
      · rw [Prod.mk.injEq] at hPh
        intro hxp
        have hxv : x ∈ v0 := by
          rw [← hPh.2]
          exact hx
        have hxj : x ∈ (t.map Prod.snd).flatten := by
          rw [List.mem_flatten]
          exact ⟨ids_p, List.mem_map_of_mem Prod.snd hpt, hxp⟩
        exact hdisj hxv hxj
      · exact ih h2 hpt hPt x hx

/-- Deleting a key removes it from lookup. -/
theorem alookup_removeKey_self {α : Type} (l : List (Nat × α)) (k : Nat) :
    alookup (removeKey l k) k = none := by
  unfold alookup removeKey
  rw [Option.map_eq_none', List.find?_eq_none]
  intro kv hkv
  have := List.of_mem_filter hkv
  simp at this ⊢
  exact this

/-- Every sequence in `acked` satisfied the ack condition. -/
theorem resolveAll_acked_cond (now : ℚ) (ack : Nat) (bf : List Char) :
    ∀ (pending : List (Nat × ℚ)) ewc ecb lat (q : Nat),
      q ∈ (resolveAll now ack bf pending ewc ecb lat).acked →
      ackCondB ack bf q = true := by
  intro pending
  induction pending with
  | nil =>
    intro ewc ecb lat q h
    simp [resolveAll] at h
  | cons e rest ih =>
    intro ewc ecb lat q h
    rcases e with ⟨p, ts⟩
    simp only [resolveAll] at h
    by_cases hp : ackCondB ack bf p = true
    · rw [if_pos hp] at h
      dsimp only at h
      rcases List.mem_cons.mp h with rfl | h2
      · exact hp
      · exact ih _ _ _ _ h2
    · rw [if_neg hp] at h
      by_cases ht : now - ts > package_timeout
      · rw [if_pos ht] at h
        dsimp only at h
        exact ih _ _ _ _ h
      · rw [if_neg ht] at h
        dsimp only at h
        exact ih _ _ _ _ h

/-- Every pending sequence satisfying the ack condition lands in
`acked`. -/
theorem resolveAll_acked_mem (now : ℚ) (ack : Nat) (bf : List Char) :
    ∀ (pending : List (Nat × ℚ)) ewc ecb lat (P : Nat) (ts : ℚ),
      (P, ts) ∈ pending → ackCondB ack bf P = true →
      P ∈ (resolveAll now ack bf pending ewc ecb lat).acked := by
  intro pending
  induction pending with
  | nil =>
    intro ewc ecb lat P ts h _
    simp at h
  | cons e rest ih =>
    intro ewc ecb lat P ts hmem hcond
    rcases e with ⟨p, ts0⟩
    simp only [resolveAll]
    by_cases hp : ackCondB ack bf p = true
    · rw [if_pos hp]
      dsimp only
      rcases List.mem_cons.mp hmem with heq | h2
      · have hPp : P = p := congrArg Prod.fst heq
        rw [hPp]
        exact List.mem_cons_self _ _
      · exact List.mem_cons_of_mem _ (ih _ _ _ P ts h2 hcond)
    · rcases List.mem_cons.mp hmem with heq | h2
      · have hPp : P = p := congrArg Prod.fst heq
        rw [hPp] at hcond
        exact absurd hcond hp
      · rw [if_neg hp]
        by_cases ht : now - ts0 > package_timeout
        · rw [if_pos ht]
          dsimp only
          exact ih _ _ _ P ts h2 hcond
        · rw [if_neg ht]
          dsimp only
          exact ih _ _ _ P ts h2 hcond

/-- The surviving pending keys come from the original table. -/
theorem resolveAll_pending_sub (now : ℚ) (ack : Nat) (bf : List Char) :
    ∀ (pending : List (Nat × ℚ)) ewc ecb lat (q : Nat),
      q ∈ (resolveAll now ack bf pending ewc ecb lat).pending.map Prod.fst →
      q ∈ pending.map Prod.fst := by
  intro pending
  induction pending with
  | nil =>
    intro ewc ecb lat q h
    simp [resolveAll] at h
  | cons e rest ih =>
    intro ewc ecb lat q h
    rcases e with ⟨p, ts⟩
    simp only [resolveAll] at h
    rw [List.map_cons]
    by_cases hp : ackCondB ack bf p = true
    · rw [if_pos hp] at h
      dsimp only at h
      exact List.mem_cons_of_mem _ (ih _ _ _ _ h)
    · rw [if_neg hp] at h
      by_cases ht : now - ts > package_timeout
      · rw [if_pos ht] at h
        dsimp only at h
        exact List.mem_cons_of_mem _ (ih _ _ _ _ h)
      · rw [if_neg ht] at h
        dsimp only at h
        rw [List.map_cons] at h
        rcases List.mem_cons.mp h with rfl | h2
        · exact List.mem_cons_self _ _
        · exact List.mem_cons_of_mem _ (ih _ _ _ _ h2)

/-- An acknowledged pending sequence is removed from the pending table. -/
theorem resolveAll_acked_removed (now : ℚ) (ack : Nat) (bf : List Char) :
    ∀ (pending : List (Nat × ℚ)) ewc ecb lat (P : Nat) (ts : ℚ),
      (pending.map Prod.fst).Nodup → (P, ts) ∈ pending →
      ackCondB ack bf P = true →
      P ∉ (resolveAll now ack bf pending ewc ecb lat).pending.map Prod.fst := by
  intro pending
  induction pending with
  | nil =>
    intro ewc ecb lat P ts _ h _
    simp at h
  | cons e rest ih =>
    intro ewc ecb lat P ts hnodup hmem hcond
    rcases e with ⟨p, ts0⟩
    rw [List.map_cons, List.nodup_cons] at hnodup
    obtain ⟨hpnotin, hrestnodup⟩ := hnodup
    dsimp only at hpnotin
    simp only [resolveAll]
    by_cases hp : ackCondB ack bf p = true
    · rw [if_pos hp]
      dsimp only
      intro hin
      have hsub := resolveAll_pending_sub now ack bf rest _ _ _ P hin
      rcases List.mem_cons.mp hmem with heq | h2
      · have hPp : P = p := congrArg Prod.fst heq
        rw [hPp] at hsub
        exact hpnotin hsub
      · exact ih _ _ _ P ts hrestnodup h2 hcond hin
    · rcases List.mem_cons.mp hmem with heq | h2
      · have hPp : P = p := congrArg Prod.fst heq
        rw [hPp] at hcond
        exact absurd hcond hp
      · rw [if_neg hp]
        by_cases ht : now - ts0 > package_timeout
        · rw [if_pos ht]
          dsimp only
          exact ih _ _ _ P ts hrestnodup h2 hcond
        · rw [if_neg ht]
          dsimp only
          rw [List.map_cons]
          intro hin
          rcases List.mem_cons.mp hin with rfl | h3
          · exact hpnotin (List.mem_map_of_mem Prod.fst h2)
          · exact ih _ _ _ P ts hrestnodup h2 hcond h3

/-- The latency after the scan is the fold of the exponential moving
average over exactly the acknowledged entries, in table order. -/
theorem resolveAll_latency (now : ℚ) (ack : Nat) (bf : List Char) :
    ∀ (pending : List (Nat × ℚ)) ewc ecb lat,
      (resolveAll now ack bf pending ewc ecb lat).latency =
        pending.foldl
          (fun l e => if ackCondB ack bf e.1 then updateLatency l (now - e.2) else l)
          lat := by
  intro pending
  induction pending with
  | nil =>
    intro ewc ecb lat
    rfl
  | cons e rest ih =>
    intro ewc ecb lat
    rcases e with ⟨p, ts⟩
    simp only [resolveAll, List.foldl_cons]
    by_cases hp : ackCondB ack bf p = true
    · rw [if_pos hp]
      dsimp only
      rw [ih]
      congr 1
      simp [hp]
    · rw [if_neg hp]
      by_cases ht : now - ts > package_timeout
      · rw [if_pos ht]
        dsimp only
        rw [ih]
        congr 1
        simp [hp]
      · rw [if_neg ht]
        dsimp only
        rw [ih]
        congr 1
        simp [hp]

/-- An ack callback registered for an acknowledged pending sequence fires,
provided callback ids are globally unique across the
`events_with_callbacks` registry (the invariant `dispatch_event`
maintains). -/
theorem resolveAll_fires (now : ℚ) (ack : Nat) (bf : List Char) :
    ∀ (pending : List (Nat × ℚ)) ewc ecb lat (P : Nat) (ts : ℚ)
      (ids : List Nat) (c : Nat) (entry : CallbackEntry),
      (pending.map Prod.fst).Nodup →
      (P, ts) ∈ pending →
      ackCondB ack bf P = true →
      alookup ewc P = some ids →
      c ∈ ids →
      alookup ecb c = some entry →
      entry.onAck = true →
      (∀ q ∈ pending.map Prod.fst, q ≠ P →
        ∀ ids_q, alookup ewc q = some ids_q → c ∉ ids_q) →
      (c, CbKind.ack) ∈ (resolveAll now ack bf pending ewc ecb lat).fired := by
  intro pending
  induction pending with
  | nil =>
    intro ewc ecb lat P ts ids c entry _ h
    simp at h
  | cons e rest ih =>
    intro ewc ecb lat P ts ids c entry hnodup hmem hcond hewc hc hecb hack hdisj
    rcases e with ⟨p, ts0⟩
    rw [List.map_cons, List.nodup_cons] at hnodup
    obtain ⟨hpnotin, hrestnodup⟩ := hnodup
    dsimp only at hpnotin
    simp only [resolveAll]
    rcases List.mem_cons.mp hmem with heq | h2
    · -- the head is the acknowledged sequence
      have hPp : P = p := congrArg Prod.fst heq
      rw [← hPp, if_pos hcond]
      dsimp only
      apply List.mem_append_left
      unfold firedOf
      rw [hewc]
      exact foldl_fireStep_fires .ack ids _ c entry hc hecb hack
    · -- the acknowledged sequence sits in the tail
      have hPmem : P ∈ rest.map Prod.fst := List.mem_map_of_mem Prod.fst h2
      have hPp : P ≠ p := fun h => hpnotin (h ▸ hPmem)
      have hdisj_rest : ∀ q ∈ rest.map Prod.fst, q ≠ P →
          ∀ ids_q, alookup (ewcAfter ewc p) q = some ids_q → c ∉ ids_q := by
        intro q hq hqP ids_q hlq
        unfold ewcAfter at hlq
        rcases hep : alookup ewc p with _ | ids_p
        · rw [hep] at hlq
          exact hdisj q (List.mem_cons_of_mem _ hq) hqP ids_q hlq
        · rw [hep] at hlq
          by_cases hqp : q = p
          · rw [hqp, alookup_removeKey_self] at hlq
            exact absurd hlq (by simp)
          · rw [alookup_removeKey_ne _ p q (fun h => hqp h.symm)] at hlq
            exact hdisj q (List.mem_cons_of_mem _ hq) hqP ids_q hlq
      have hdisj_rest_same : ∀ q ∈ rest.map Prod.fst, q ≠ P →
          ∀ ids_q, alookup ewc q = some ids_q → c ∉ ids_q := by
        intro q hq hqP ids_q hlq
        exact hdisj q (List.mem_cons_of_mem _ hq) hqP ids_q hlq
      have hewc_after : alookup (ewcAfter ewc p) P = some ids := by
        unfold ewcAfter
        rcases hep : alookup ewc p with _ | ids_p
        · exact hewc
        · rw [alookup_removeKey_ne _ p P (fun h => hPp h.symm)]
          exact hewc
      have hnotin_p : ∀ ids_p, alookup ewc p = some ids_p → c ∉ ids_p := by
        intro ids_p hep
        exact hdisj p (List.mem_cons_self _ _) (fun h => hPp h.symm) ids_p hep
      have hecb_after : ∀ kind, alookup (ecbAfter kind ewc p ecb) c = some entry := by
        intro kind
        unfold ecbAfter
        rcases hep : alookup ewc p with _ | ids_p
        · exact hecb
        · unfold fireCallbacks
          rw [foldl_fireStep_frame kind ids_p _ c (hnotin_p ids_p hep)]
          exact hecb
      by_cases hp : ackCondB ack bf p = true
      · rw [if_pos hp]
        dsimp only
        apply List.mem_append_right
        exact ih _ _ _ P ts ids c entry hrestnodup h2 hcond hewc_after hc
          (hecb_after .ack) hack hdisj_rest
      · rw [if_neg hp]
        by_cases ht : now - ts0 > package_timeout
        · rw [if_pos ht]
          dsimp only
          apply List.mem_append_right
          exact ih _ _ _ P ts ids c entry hrestnodup h2 hcond hewc_after hc
            (hecb_after .timeout) hack hdisj_rest
        · rw [if_neg ht]
          dsimp only
          exact ih _ _ _ P ts ids c entry hrestnodup h2 hcond hewc hc hecb hack
            hdisj_rest_same

/-- C2 (counterexample): the claim asserts that a pending sequence at
modular distance exactly 32 whose bitfield bit 31 is set is acknowledged;
the scan's strict `0 < sequence_diff < 32` test never consults bit 31, so
pending sequence 1 stays unacknowledged (and pending, with no callbacks
fired) when ack 33 arrives with bit 31 set. -/
theorem C2_distance32_not_acked :
    sqnSub 33 1 = 32 ∧
    (List.replicate 31 '0' ++ ['1']).get? 31 = some '1' ∧
    (resolveAll (1/2) 33 (List.replicate 31 '0' ++ ['1'])
        [(1, 0)] [(1, [7])] [(7, ⟨true, true⟩)] 0).acked = [] ∧
    (resolveAll (1/2) 33 (List.replicate 31 '0' ++ ['1'])
        [(1, 0)] [(1, [7])] [(7, ⟨true, true⟩)] 0).pending = [(1, 0)] ∧
    (resolveAll (1/2) 33 (List.replicate 31 '0' ++ ['1'])
        [(1, 0)] [(1, [7])] [(7, ⟨true, true⟩)] 0).fired = [] := by
  have hcond : ¬ (ackCondB 33 (List.replicate 31 '0' ++ ['1']) 1 = true) := by decide
  have ht : ¬ ((1 : ℚ)/2 - 0 > package_timeout) := by norm_num [package_timeout]
  refine ⟨by decide, by decide, ?_, ?_, ?_⟩ <;>
    · simp only [resolveAll]
      rw [if_neg hcond, if_neg ht]

/-- C2 (amended): on receiving a packet with ack `A` and bitfield `B`,
a pending outbound sequence `P` with `pd = A - P` is acknowledged -
removed from the pending table, its registered on-ack callbacks fired,
and the latency folded through the RTT moving average - exactly when
`pd == 0`, or `0 < pd < 32` and bit `pd - 1` of `B` is 1; a pending
sequence at modular distance exactly 32 is not acknowledged via the
bitfield.  Callback firing assumes the `dispatch_event` invariant that
callback ids are globally unique across the registry. -/
theorem C2_pending_ack_resolution (now : ℚ) (ack : Nat) (bf : List Char)
    (pending : List (Nat × ℚ)) (ewc : List (Nat × List Nat))
    (ecb : List (Nat × CallbackEntry)) (lat : ℚ) (P : Nat) (ts : ℚ)
    (hkeys : (pending.map Prod.fst).Nodup)
    (hids : ((ewc.map Prod.snd).flatten).Nodup)
    (hmem : (P, ts) ∈ pending) :
    (P ∈ (resolveAll now ack bf pending ewc ecb lat).acked ↔
      ackCondB ack bf P = true) ∧
    (ackCondB ack bf P = true →
      P ∉ (resolveAll now ack bf pending ewc ecb lat).pending.map Prod.fst ∧
      ∀ ids c entry, alookup ewc P = some ids → c ∈ ids →
        alookup ecb c = some entry → entry.onAck = true →
        (c, CbKind.ack) ∈ (resolveAll now ack bf pending ewc ecb lat).fired) ∧
    (resolveAll now ack bf pending ewc ecb lat).latency =
      pending.foldl
        (fun l e => if ackCondB ack bf e.1 then updateLatency l (now - e.2) else l)
        lat := by
  refine ⟨⟨fun h => resolveAll_acked_cond now ack bf pending ewc ecb lat P h,
      fun h => resolveAll_acked_mem now ack bf pending ewc ecb lat P ts hmem h⟩,
    fun hcond => ⟨resolveAll_acked_removed now ack bf pending ewc ecb lat P ts
      hkeys hmem hcond, ?_⟩,
    resolveAll_latency now ack bf pending ewc ecb lat⟩
  intro ids c entry hewcP hc hecb hack
  apply resolveAll_fires now ack bf pending ewc ecb lat P ts ids c entry hkeys
    hmem hcond hewcP hc hecb hack
  intro q hq hqP ids_q hlq
  exact join_nodup_disjoint ewc hids q P ids_q ids hqP (alookup_mem _ _ _ hlq)
    (alookup_mem _ _ _ hewcP) c hc

/-- C2 (witness): pending sequence 1 at distance 31 from ack 32 with bit 30
set is acknowledged: removed, its ack callback 7 fired, and the latency
moved to one twentieth. -/
theorem C2_pending_ack_resolution_witness :
    1 ∈ (resolveAll (1/2) 32 (List.replicate 30 '0' ++ ['1', '0'])
        [(1, 0)] [(1, [7])] [(7, ⟨true, true⟩)] 0).acked ∧
    1 ∉ (resolveAll (1/2) 32 (List.replicate 30 '0' ++ ['1', '0'])
        [(1, 0)] [(1, [7])] [(7, ⟨true, true⟩)] 0).pending.map Prod.fst ∧
    (7, CbKind.ack) ∈ (resolveAll (1/2) 32 (List.replicate 30 '0' ++ ['1', '0'])
        [(1, 0)] [(1, [7])] [(7, ⟨true, true⟩)] 0).fired ∧
    (resolveAll (1/2) 32 (List.replicate 30 '0' ++ ['1', '0'])
        [(1, 0)] [(1, [7])] [(7, ⟨true, true⟩)] 0).latency = 1/20 := by
  have h := C2_pending_ack_resolution (1/2) 32 (List.replicate 30 '0' ++ ['1', '0'])
    [(1, 0)] [(1, [7])] [(7, ⟨true, true⟩)] 0 1 0 (by decide) (by decide) (by decide)
  have hcond : ackCondB 32 (List.replicate 30 '0' ++ ['1', '0']) 1 = true := by decide
  obtain ⟨hiff, hrest, hlat⟩ := h
  obtain ⟨hrem, hfire⟩ := hrest hcond
  refine ⟨hiff.mpr hcond, hrem, hfire [7] 7 ⟨true, true⟩ rfl (by decide) rfl rfl, ?_⟩
  rw [hlat]
  simp only [List.foldl_cons, List.foldl_nil]
  rw [if_pos hcond]
  norm_num [updateLatency]

/-- Appending one digit multiplies the value by two and adds the digit. -/
theorem binStrToNat_append_singleton (xs : List Char) (c : Char) :
    binStrToNat (xs ++ [c]) = 2 * binStrToNat xs + bitVal c := by
  unfold binStrToNat
  rw [List.foldl_append]
  rfl

/-- The value of a digit string is below two to its length. -/
theorem binStrToNat_lt (s : List Char) : binStrToNat s < 2 ^ s.length := by
  induction s using List.reverseRecOn with
  | nil => simp [binStrToNat]
  | append_singleton xs c ih =>
    rw [binStrToNat_append_singleton]
    have hb : bitVal c ≤ 1 := by
      unfold bitVal
      split <;> omega
    rw [List.length_append, List.length_singleton, pow_succ]
    omega

/-- A value of leading zeros contributes nothing. -/
theorem binStrToNat_replicate_zero (j : Nat) (s : List Char) :
    binStrToNat (List.replicate j '0' ++ s) = binStrToNat s := by
  induction j with
  | zero => rfl
  | succ n ih =>
    rw [List.replicate_succ, List.cons_append]
    unfold binStrToNat at ih ⊢
    rw [List.foldl_cons]
    simpa [bitVal] using ih

/-- Zero-filling does not change the value. -/
theorem binStrToNat_zfill (k : Nat) (s : List Char) :
    binStrToNat (zfill k s) = binStrToNat s :=
  binStrToNat_replicate_zero _ s

/-- The fuelled binary rendering is correct whenever the fuel covers the
input. -/
theorem natToBinAux_val (fuel : Nat) :
    ∀ n, n ≤ fuel → binStrToNat (natToBinAux fuel n) = n := by
  induction fuel with
  | zero =>
    intro n hn
    interval_cases n
    rfl
  | succ fuel ih =>
    intro n hn
    unfold natToBinAux
    by_cases h0 : n = 0
    · simp [h0, binStrToNat]
    · rw [if_neg h0, binStrToNat_append_singleton]
      have hdiv : n / 2 ≤ fuel := by omega
      rw [ih (n / 2) hdiv]
      have : bitVal (bitChar (n % 2)) = n % 2 := by
        rcases Nat.mod_two_eq_zero_or_one n with h | h <;> simp [h, bitChar, bitVal]
      omega

/-- `binStrToNat (natToBinStr n) = n`. -/
theorem natToBinStr_val (n : Nat) : binStrToNat (natToBinStr n) = n := by
  unfold natToBinStr
  by_cases h0 : n = 0
  · simp [h0, binStrToNat, bitVal]
  · rw [if_neg h0]
    exact natToBinAux_val n n le_rfl

/-- Length bound of the fuelled binary rendering. -/
theorem natToBinAux_length (fuel : Nat) :
    ∀ n k, n ≤ fuel → n < 2 ^ k → (natToBinAux fuel n).length ≤ k := by
  induction fuel with
  | zero =>
    intro n k hn _
    interval_cases n
    simp [natToBinAux]
  | succ fuel ih =>
    intro n k hn hk
    unfold natToBinAux
    by_cases h0 : n = 0
    · simp [h0]
    · rw [if_neg h0]
      rcases k with _ | m
      · omega
      · have h2 : (2 : Nat) ^ (m + 1) = 2 * 2 ^ m := by ring
        have hdivlt : n / 2 < 2 ^ m := by omega
        have hdivle : n / 2 ≤ fuel := by omega
        have := ih (n / 2) m hdivle hdivlt
        rw [List.length_append, List.length_singleton]
        omega

/-- Length bound of `bin(n)[2:]` for positive targets. -/
theorem natToBinStr_length (n k : Nat) (hk : 1 ≤ k) (hn : n < 2 ^ k) :
    (natToBinStr n).length ≤ k := by
  unfold natToBinStr
  by_cases h0 : n = 0
  · simp [h0]
    omega
  · rw [if_neg h0]
    exact natToBinAux_length n n k le_rfl hn

/-- Every character the binary rendering emits is a binary digit. -/
theorem natToBinAux_binary (fuel : Nat) :
    ∀ n c, c ∈ natToBinAux fuel n → c = '0' ∨ c = '1' := by
  induction fuel with
  | zero =>
    intro n c hc
    simp [natToBinAux] at hc
  | succ fuel ih =>
    intro n c hc
    unfold natToBinAux at hc
    by_cases h0 : n = 0
    · simp [h0] at hc
    · rw [if_neg h0] at hc
      rcases List.mem_append.mp hc with h | h
      · exact ih (n / 2) c h
      · simp at h
        unfold bitChar at h
        split at h <;> simp [h]

/-- The canonical big-endian bit string of width `k`. -/
def bitsBE (k n : Nat) : List Char :=
  (List.range k).map (fun i => if n.testBit (k - 1 - i) then '1' else '0')

/-- Peeling the least significant bit off the canonical bit string. -/
theorem bitsBE_succ (k n : Nat) :
    bitsBE (k + 1) n =
      bitsBE k (n / 2) ++ [if n.testBit 0 then '1' else '0'] := by
  unfold bitsBE
  rw [List.range_succ, List.map_append]
  congr 1
  · apply List.map_congr_left
    intro i hi
    have hik : i < k := List.mem_range.mp hi
    have harg : k + 1 - 1 - i = (k - 1 - i) + 1 := by omega
    rw [harg, Nat.testBit_succ]
  · simp

/-- The canonical bit string of the value of a binary digit string is the
string itself. -/
theorem bitsBE_binStrToNat (s : List Char) (hbin : ∀ c ∈ s, c = '0' ∨ c = '1') :
    bitsBE s.length (binStrToNat s) = s := by
  induction s using List.reverseRecOn with
  | nil => rfl
  | append_singleton xs c ih =>
    rw [binStrToNat_append_singleton, List.length_append, List.length_singleton,
      bitsBE_succ]
    have hbv : bitVal c ≤ 1 := by
      unfold bitVal
      split <;> omega
    have hdiv : (2 * binStrToNat xs + bitVal c) / 2 = binStrToNat xs := by omega
    rw [hdiv, ih (fun d hd => hbin d (List.mem_append_left _ hd))]
    congr 1
    have hmod : (2 * binStrToNat xs + bitVal c) % 2 = bitVal c := by omega
    rcases hbin c (List.mem_append_right _ (by simp)) with hc | hc
    · rw [hc]
      have : bitVal '0' = 0 := rfl
      rw [Nat.testBit_zero]
      simp [hmod, hc, bitVal]
    · rw [hc]
      rw [Nat.testBit_zero]
      simp [hmod, hc, bitVal]
      omega

/-- Decoding the packed bitfield reproduces a well-formed 32-character
bitfield string: `bin(value)[2:].zfill(k)` inverts `int(s, 2)`. -/
theorem zfill_natToBinStr_val (k : Nat) (s : List Char) (hk : 1 ≤ k)
    (hlen : s.length = k) (hbin : ∀ c ∈ s, c = '0' ∨ c = '1') :
    zfill k (natToBinStr (binStrToNat s)) = s := by
  have hvlt : binStrToNat s < 2 ^ k := hlen ▸ binStrToNat_lt s
  have hblen : (natToBinStr (binStrToNat s)).length ≤ k :=
    natToBinStr_length _ k hk hvlt
  have hzlen : (zfill k (natToBinStr (binStrToNat s))).length = k := by
    unfold zfill
    rw [List.length_append, List.length_replicate]
    omega
  have hzbin : ∀ c ∈ zfill k (natToBinStr (binStrToNat s)), c = '0' ∨ c = '1' := by
    intro c hc
    unfold zfill at hc
    rcases List.mem_append.mp hc with h | h
    · exact Or.inl (List.eq_of_mem_replicate h)
    · unfold natToBinStr at h
      by_cases h0 : binStrToNat s = 0
      · rw [h0] at h
        simp at h
        exact Or.inl h
      · rw [if_neg h0] at h
        exact natToBinAux_binary _ _ c h
  have hzval : binStrToNat (zfill k (natToBinStr (binStrToNat s))) = binStrToNat s := by
    rw [binStrToNat_zfill, natToBinStr_val]
  calc zfill k (natToBinStr (binStrToNat s))
      = bitsBE (zfill k (natToBinStr (binStrToNat s))).length
          (binStrToNat (zfill k (natToBinStr (binStrToNat s)))) :=
        (bitsBE_binStrToNat _ hzbin).symm
    _ = bitsBE k (binStrToNat s) := by rw [hzlen, hzval]
    _ = bitsBE s.length (binStrToNat s) := by rw [hlen]
    _ = s := bitsBE_binStrToNat s hbin

/-- C9: decoding the 12-byte encoding of any well-formed header (sequence
and ack within 16 bits, bitfield a 32-character binary string) yields the
same header and an empty remainder. -/
theorem C9_header_roundtrip (h : Header)
    (hs : h.sequence ≤ 65535) (ha : h.ack ≤ 65535)
    (hlen : h.ack_bitfield.length = 32)
    (hbin : ∀ c ∈ h.ack_bitfield, c = '0' ∨ c = '1') :
    h.to_bytearray.length = 12 ∧
    Header.deconstruct_datagram h.to_bytearray = .ok (h, []) := by
  obtain ⟨s, a, bf⟩ := h
  simp only at hs ha hlen hbin
  have hvlt : binStrToNat bf < 2 ^ 32 := hlen ▸ binStrToNat_lt bf
  constructor
  · simp [Header.to_bytearray, PROTOCOL_ID, toSqnBytes, toBytes4]
  · unfold Header.to_bytearray Header.deconstruct_datagram PROTOCOL_ID toSqnBytes toBytes4
    simp only [List.cons_append, List.nil_append]
    rw [if_neg (by simp)]
    simp only [List.drop, List.take, fromBytesBE, List.foldl]
    have hseq : 256 * (256 * 0 + s / 256 % 256) + s % 256 = s := by omega
    have hackv : 256 * (256 * 0 + a / 256 % 256) + a % 256 = a := by omega
    have hb : 256 * (256 * (256 * (256 * 0 + binStrToNat bf / 16777216 % 256)
        + binStrToNat bf / 65536 % 256) + binStrToNat bf / 256 % 256)
        + binStrToNat bf % 256 = binStrToNat bf := by omega
    rw [hseq, hackv, hb, zfill_natToBinStr_val 32 bf (by omega) hlen hbin]

/-- C9 (witness): round-tripping the concrete header with sequence 513,
ack 7, and bitfield bits 0 and 31 set. -/
theorem C9_header_roundtrip_witness :
    (Header.to_bytearray ⟨513, 7, '1' :: '0' :: List.replicate 29 '0' ++ ['1']⟩).length = 12 ∧
    Header.deconstruct_datagram
        (Header.to_bytearray ⟨513, 7, '1' :: '0' :: List.replicate 29 '0' ++ ['1']⟩) =
      .ok (⟨513, 7, '1' :: '0' :: List.replicate 29 '0' ++ ['1']⟩, []) :=
  C9_header_roundtrip ⟨513, 7, '1' :: '0' :: List.replicate 29 '0' ++ ['1']⟩
    (by decide) (by decide) (by decide) (by decide)

end PygaseSpec
